import Mathlib

/-!
# DemoPlayer Pro: the track catalog and the playback controller

A shallow embedding of `src/app.js` (class `MusicApp`).  The object's fields
become a record, every method becomes a function from state to state, and the
answers of the browser (the confirm dialog, whether a store write succeeds,
the clock, what the HTML parser makes of a track name) are explicit arguments.
Asynchronous methods are modelled as running to completion, except that the
reload which `deleteTrack` starts without awaiting it is the separate step
`loadPlaylist`.  A method that throws ends at the throwing statement and
keeps the assignments made before it.  The page is taken to hold every
element the constructor looks up (lines 15-38), and the requests `getAll` and
`delete` of the object store are taken to succeed.
-/

namespace DemoPlayer

/-! ## Data model -/

/-- One record of the object store `tracks` (`saveTrack`, lines 191-195);
`id` is the key the store assigns (`keyPath: 'id', autoIncrement: true`). -/
structure Track where
  id : Nat
  name : String
  blob : List Nat
  date : Nat
  deriving DecidableEq, Repr

/-- One entry of `event.target.files`.  `storeOk` is the outcome of the
`store.add` request for this file (`onsuccess` or `onerror`) and `now` the
value of `new Date()` at that moment. -/
structure File where
  name : String
  type : String
  content : List Nat
  storeOk : Bool
  now : Nat
  deriving DecidableEq, Repr

/-- The messages passed to `showToast`. -/
inductive Toast where
  /-- The text is 'Error al iniciar la aplicación'. -/
  | initError
  /-- The text is '¡Modo Pro Activado! 🏆'. -/
  | proActivated
  /-- The text is 'Código inválido ❌'. -/
  | invalidCode
  /-- The text is 'Límite de N canciones gratuitas alcanzado'. -/
  | limitReached (max : Nat)
  /-- The text is 'N tema(s) guardado(s)'. -/
  | saved (n : Nat)
  /-- The text is 'No se pudieron cargar los archivos'. -/
  | loadFailed
  /-- The text is 'Tema eliminado'. -/
  | deleted
  deriving DecidableEq, Repr

/-- The value of `this.maxFreeTracks`, set once in the constructor (line 11). -/
def maxFreeTracks : Nat := 10

/-- The value of `this.proKey`, set once in the constructor (line 12). -/
def proKey : String := "DEMOPRO2025"

/-- The fields of a `MusicApp` together with the parts of the browser it
reads and writes: the object store `tracks` with its key generator, the
`isPro` entry of local storage, the `key` parameter of the address, the audio
element and the page elements the methods assign. -/
structure MusicApp where
  /-- Contents of the object store, in key order. -/
  db : List Track
  /-- Key generator of the object store. -/
  nextKey : Nat
  /-- Field `this.tracks`, the cached result of the last `getAll`. -/
  tracks : List Track
  currentTrackIndex : Int
  isPlaying : Bool
  isPro : Bool
  /-- Whether local storage holds `isPro = 'true'`. -/
  storedPro : Bool
  /-- The `key` parameter of the address, if any. -/
  urlKey : Option String
  /-- Field `audio.src`; `none` stands for the empty string. -/
  audioSrc : Option (List Nat)
  audioPaused : Bool
  trackTitle : String
  progressBar : String
  currentTime : String
  duration : String
  upgradeModalHidden : Bool
  toast : Option Toast
  deriving DecidableEq, Repr

/-- State right after the field assignments of the constructor (lines 3-12),
over the given persistent storage and address. -/
def MusicApp.constructor (db : List Track) (nextKey : Nat) (storedPro : Bool)
    (urlKey : Option String) : MusicApp :=
  { db := db, nextKey := nextKey, tracks := [], currentTrackIndex := -1,
    isPlaying := false, isPro := false, storedPro := storedPro, urlKey := urlKey,
    audioSrc := none, audioPaused := true, trackTitle := "Selecciona un tema",
    progressBar := "0%", currentTime := "0:00", duration := "0:00",
    upgradeModalHidden := true, toast := none }

/-! ## Helpers -/

/-- The expression `name.replace(/\.[^/.]+$/, "")`: a final dot followed by
one or more characters other than dot and slash is removed. -/
def stripExtension (name : String) : String :=
  let rev := name.toList.reverse
  let ext := rev.takeWhile (fun c => c != '.' && c != '/')
  match rev.drop ext.length with
  | '.' :: before => if ext.isEmpty then name else String.mk before.reverse
  | _ => name

/-- The method `String.prototype.startsWith`, on the characters of both
strings. -/
def startsWith (str start : String) : Bool :=
  start.toList.isPrefixOf str.toList

/-- Search of `Array.prototype.findIndex` from position `k` on. -/
def findIndexFrom {α : Type} (p : α → Bool) : List α → Nat → Int
  | [], _ => -1
  | x :: xs, k => if p x then (k : Int) else findIndexFrom p xs (k + 1)

/-- The method `Array.prototype.findIndex`: first position whose element
satisfies `p`, or `-1`. -/
def findIndex {α : Type} (p : α → Bool) (xs : List α) : Int :=
  findIndexFrom p xs 0

/-! ## Entitlement -/

/-- Method `activatePro` (lines 126-141). -/
def activatePro (s : MusicApp) (code : String) (fromUrl : Bool) : MusicApp :=
  if code = proKey then
    let s1 := { s with isPro := true, storedPro := true, upgradeModalHidden := true,
                       toast := some Toast.proActivated }
    if fromUrl then { s1 with urlKey := none } else s1
  else
    { s with toast := some Toast.invalidCode }

/-- Method `checkProStatus` (lines 109-124). -/
def checkProStatus (s : MusicApp) : MusicApp :=
  let s1 := if s.storedPro then { s with isPro := true } else s
  match s1.urlKey with
  | some key => if key = proKey then activatePro s1 key true else s1
  | none => s1

/-! ## Catalog -/

/-- Method `loadPlaylist` (lines 202-214): the cache becomes the result of
`store.getAll()`.  The callback assigns `this.tracks` (line 209) before it
calls `renderPlaylist` (line 210), so an exception of the rendering changes
no field of the application. -/
def loadPlaylist (s : MusicApp) : MusicApp :=
  { s with tracks := s.db }

/-! ## Rendering

`renderPlaylist` puts the shown name unescaped into `li.innerHTML` (lines
229-234) and then uses the result of `li.querySelector('.delete-btn')` without
a check (lines 244-245).  The one answer of the browser's HTML parser the
methods depend on is whether that lookup finds an element.  It is the argument
`html`, a function of the shown name, consulted only for names outside the two
cases that the definitions below settle. -/

/-- Whether the shown name opens a comment and cannot close it: its first `<`
starts the four characters `<`, `!`, `-`, `-` and no `>` follows.  The text
before the first `<` is character data, the comment opens there, and the rest
of the item's markup (lines 230-233) holds no two hyphens in a row, so the
comment runs to the end of the markup and takes the button with it. -/
def opensComment (shown : String) : Bool :=
  let rest := shown.toList.dropWhile (fun c => c != '<')
  ['<', '!', '-', '-'].isPrefixOf rest && !rest.contains '>'

/-- Whether `li.querySelector('.delete-btn')` (line 244) finds an element in
the item built for the shown name.  A name without `<` is character data only,
so the button of line 231 is there; a name for which `opensComment` holds
leaves no button; for every other name the answer is the parser's, `html`. -/
def hasDeleteBtn (html : String → Bool) (shown : String) : Bool :=
  if !shown.toList.contains '<' then true
  else if opensComment shown then false
  else html shown

/-- The loop of `renderPlaylist` (lines 225-251) from position `k` on: the
items appended to the list, each with the string put into its markup and
whether it carries the class `active`, and whether the loop ended with the
exception of line 245 (`deleteBtn` is `null`), which comes before the item is
appended (line 250). -/
def renderItems (html : String → Bool) (current : Int) :
    List Track → Nat → List (String × Bool) × Bool
  | [], _ => ([], false)
  | track :: rest, k =>
    if hasDeleteBtn html (stripExtension track.name) then
      let r := renderItems html current rest (k + 1)
      ((stripExtension track.name, decide ((k : Int) = current)) :: r.1, r.2)
    else ([], true)

/-- Method `renderPlaylist` (lines 216-252): the items it appends and whether
it throws.  For an empty catalog it shows the placeholder line instead and
returns (lines 220-223).  It assigns no field of the application. -/
def renderPlaylist (html : String → Bool) (s : MusicApp) : List (String × Bool) × Bool :=
  renderItems html s.currentTrackIndex s.tracks 0

/-- Method `saveTrack` (lines 187-200): `none` when the request fails. -/
def saveTrack (s : MusicApp) (file : File) : Option MusicApp :=
  if file.storeOk then
    some { s with db := s.db ++ [{ id := s.nextKey, name := file.name,
                                   blob := file.content, date := file.now }],
                  nextKey := s.nextKey + 1 }
  else none

/-- The loop of `handleFileUpload` (lines 164-174): state and `addedCount`
after the given files. -/
def saveFiles : List File → MusicApp × Nat → MusicApp × Nat
  | [], acc => acc
  | file :: rest, (s, addedCount) =>
    if startsWith file.type "audio/" then
      match saveTrack s file with
      | some s1 => saveFiles rest (s1, addedCount + 1)
      | none => saveFiles rest (s, addedCount)
    else saveFiles rest (s, addedCount)

/-- Method `handleFileUpload` (lines 153-185). -/
def handleFileUpload (s : MusicApp) (files : List File) : MusicApp :=
  if files.length = 0 then s
  else if !s.isPro && decide (s.tracks.length + files.length > maxFreeTracks) then
    { s with upgradeModalHidden := false, toast := some (Toast.limitReached maxFreeTracks) }
  else
    let r := saveFiles files (s, 0)
    if r.2 > 0 then loadPlaylist { r.1 with toast := some (Toast.saved r.2) }
    else { r.1 with toast := some Toast.loadFailed }

/-! ## Playback controller -/

/-- Method `play` (lines 311-318). -/
def play (s : MusicApp) : MusicApp :=
  { s with audioPaused := false, isPlaying := true }

/-- Method `pause` (lines 320-326). -/
def pause (s : MusicApp) : MusicApp :=
  { s with audioPaused := true, isPlaying := false }

/-- Method `loadTrack` (lines 276-297).  Lines 282-291 assign the index, the
audio source, the title and the progress display; line 294 calls
`renderPlaylist`, and when that throws the method ends there, before the call
of `play` on line 296.  Line 279 is a comment only: no object URL is revoked. -/
def loadTrack (html : String → Bool) (s : MusicApp) (index : Int) : MusicApp :=
  if index < 0 ∨ index ≥ (s.tracks.length : Int) then s
  else
    match s.tracks[index.toNat]? with
    | none => s
    | some track =>
      let s1 := { s with currentTrackIndex := index, audioSrc := some track.blob,
                         trackTitle := stripExtension track.name,
                         progressBar := "0%", currentTime := "0:00", duration := "0:00" }
      if (renderPlaylist html s1).2 then s1 else play s1

/-- Method `togglePlay` (lines 299-309). -/
def togglePlay (html : String → Bool) (s : MusicApp) : MusicApp :=
  if s.currentTrackIndex = -1 ∧ s.tracks.length > 0 then loadTrack html s 0
  else if s.currentTrackIndex ≠ -1 then
    if s.isPlaying then pause s else play s
  else s

/-- Method `playNext` (lines 328-340). -/
def playNext (html : String → Bool) (s : MusicApp) (auto : Bool) : MusicApp :=
  if s.tracks.length = 0 then s
  else
    let nextIndex := s.currentTrackIndex + 1
    if nextIndex ≥ (s.tracks.length : Int) then
      if auto && decide (s.tracks.length > 1) then loadTrack html s 0
      else if auto then s
      else loadTrack html s 0
    else loadTrack html s nextIndex

/-- Method `playPrevious` (lines 342-347). -/
def playPrevious (html : String → Bool) (s : MusicApp) : MusicApp :=
  if s.tracks.length = 0 then s
  else
    let prevIndex := s.currentTrackIndex - 1
    if prevIndex < 0 then loadTrack html s ((s.tracks.length : Int) - 1)
    else loadTrack html s prevIndex

/-- Method `deleteTrack` (lines 254-274) up to its last statement; `confirmed`
is the answer of the confirm dialog.  The reload it starts on line 272 is not
awaited: its completion is the later step `loadPlaylist`. -/
def deleteTrack (s : MusicApp) (id : Nat) (confirmed : Bool) : MusicApp :=
  if !confirmed then s
  else
    let s1 := { s with db := s.db.filter (fun t => t.id != id) }
    let trackIndex := findIndex (fun t => t.id == id) s1.tracks
    let s2 :=
      if trackIndex = s1.currentTrackIndex then
        { s1 with audioPaused := true, audioSrc := none,
                  trackTitle := "Selecciona un tema", isPlaying := false,
                  currentTrackIndex := -1 }
      else s1
    { s2 with toast := some Toast.deleted }

/-- Method `init` (lines 43-53) when the database opens. -/
def MusicApp.init (s : MusicApp) : MusicApp :=
  loadPlaylist (checkProStatus s)

/-- The range the session index is meant to stay in: `-1` or a position of
the cached catalog. -/
def validIndex (s : MusicApp) : Prop :=
  -1 ≤ s.currentTrackIndex ∧ s.currentTrackIndex ≤ (s.tracks.length : Int) - 1

instance (s : MusicApp) : Decidable (validIndex s) := by
  unfold validIndex; exact inferInstance

/-- Well-formedness of the object store: the keys of its records increase
strictly and lie below the key generator. -/
def storeWF (s : MusicApp) : Prop :=
  (s.db.map Track.id).Pairwise (fun a b => a < b) ∧ ∀ t ∈ s.db, t.id < s.nextKey

/-! ## Sample inputs -/

/-- A sample audio file. -/
def fileA : File :=
  { name := "a.mp3", type := "audio/mpeg", content := [1], storeOk := true, now := 100 }

/-- A second sample audio file. -/
def fileB : File :=
  { name := "b.tar.ogg", type := "audio/ogg", content := [2], storeOk := true, now := 101 }

/-- A third sample audio file. -/
def fileC : File :=
  { name := "c.wav", type := "audio/wav", content := [3], storeOk := true, now := 102 }

/-- A sample audio file whose shown name, `a` followed by `<`, `!`, `-`, `-`,
opens a comment in the item's markup. -/
def fileD : File :=
  { name := String.mk ['a', '<', '!', '-', '-', '.', 'm', 'p', '3'], type := "audio/mpeg",
    content := [4], storeOk := true, now := 103 }

/-- A parser answer for the sample runs.  The sample names contain no `<` or
open a comment, so `hasDeleteBtn` never consults it. -/
def htmlKeeps : String → Bool := fun _ => true

/-- The application after start-up on an empty store. -/
def app0 : MusicApp := (MusicApp.constructor [] 1 false none).init

/-- The application after uploading one file. -/
def app1 : MusicApp := handleFileUpload app0 [fileA]

/-- The application after uploading two files. -/
def app2 : MusicApp := handleFileUpload app0 [fileA, fileB]

/-- The application after uploading three files. -/
def app3 : MusicApp := handleFileUpload app0 [fileA, fileB, fileC]

/-- The application holding eight tracks. -/
def app8 : MusicApp :=
  handleFileUpload app0 [fileA, fileB, fileC, fileA, fileB, fileC, fileA, fileB]

/-- The application after uploading the one file whose item loses its delete
button. -/
def appD : MusicApp := handleFileUpload app0 [fileD]

/-- The application after uploading that file and a plain one. -/
def appDB : MusicApp := handleFileUpload app0 [fileD, fileB]

/-- The application after uploading a plain file and that file. -/
def appAD : MusicApp := handleFileUpload app0 [fileA, fileD]

/-! ## Helper lemmas -/

theorem saveFiles_toast (files : List File) (s : MusicApp) (k : Nat) :
    (saveFiles files (s, k)).1.toast = s.toast := by
  induction files generalizing s k with
  | nil => rfl
  | cons f rest ih =>
    simp only [saveFiles]
    split
    · cases hf : f.storeOk <;> simp [saveTrack, hf, ih]
    · exact ih s k

theorem findIndexFrom_unique (l : List Track) (i k : Nat) (t : Track)
    (hnd : (l.map Track.id).Nodup) (ht : l[i]? = some t) :
    findIndexFrom (fun x => x.id == t.id) l k = ((k + i : Nat) : Int) := by
  induction l generalizing i k with
  | nil => simp at ht
  | cons x xs ih =>
    rw [List.map_cons, List.nodup_cons] at hnd
    cases i with
    | zero =>
      simp only [List.getElem?_cons_zero, Option.some.injEq] at ht
      subst ht
      simp [findIndexFrom]
    | succ j =>
      simp only [List.getElem?_cons_succ] at ht
      have hmem : t ∈ xs := List.mem_iff_getElem?.2 ⟨j, ht⟩
      have hne : x.id ≠ t.id := by
        intro h
        exact hnd.1 (h ▸ List.mem_map_of_mem Track.id hmem)
      simp only [findIndexFrom, beq_iff_eq, hne, if_false]
      rw [ih j (k + 1) hnd.2 ht]
      congr 1
      omega

theorem hasDeleteBtn_plain (html : String → Bool) (shown : String)
    (h : shown.toList.contains '<' = false) : hasDeleteBtn html shown = true := by
  unfold hasDeleteBtn
  rw [h]
  rfl

theorem opensComment_contains (shown : String) (h : opensComment shown = true) :
    shown.toList.contains '<' = true := by
  by_contra hc
  have hall : ∀ c ∈ shown.toList, (c != '<') = true := by
    intro c hmem
    by_contra hne
    apply hc
    have hceq : c = '<' := by simpa using hne
    rw [List.contains_iff_exists_mem_beq]
    exact ⟨c, hmem, by simp [hceq]⟩
  have hnil : shown.toList.dropWhile (fun c => c != '<') = [] :=
    List.dropWhile_eq_nil_iff.2 hall
  simp only [opensComment] at h
  rw [hnil] at h
  exact absurd h (by decide)

theorem hasDeleteBtn_comment (html : String → Bool) (shown : String)
    (h : opensComment shown = true) : hasDeleteBtn html shown = false := by
  unfold hasDeleteBtn
  rw [opensComment_contains shown h, h]
  rfl

theorem renderItems_throws (html : String → Bool) (c c2 : Int) (ts : List Track) (k k2 : Nat) :
    (renderItems html c ts k).2 = (renderItems html c2 ts k2).2 := by
  induction ts generalizing k k2 with
  | nil => rfl
  | cons t rest ih =>
    simp only [renderItems]
    split
    · exact ih (k + 1) (k2 + 1)
    · rfl

theorem loadTrack_inRange (html : String → Bool) (s : MusicApp) (index : Int)
    (h0 : 0 ≤ index) (h1 : index < (s.tracks.length : Int)) :
    ∃ track, s.tracks[index.toNat]? = some track ∧
      loadTrack html s index
        = if (renderPlaylist html s).2 then
            { s with currentTrackIndex := index, audioSrc := some track.blob,
                     trackTitle := stripExtension track.name,
                     progressBar := "0%", currentTime := "0:00", duration := "0:00" }
          else
            play { s with currentTrackIndex := index, audioSrc := some track.blob,
                          trackTitle := stripExtension track.name,
                          progressBar := "0%", currentTime := "0:00", duration := "0:00" } := by
  have hlt : index.toNat < s.tracks.length := by omega
  refine ⟨s.tracks[index.toNat], List.getElem?_eq_getElem hlt, ?_⟩
  have hg : ¬ (index < 0 ∨ index ≥ (s.tracks.length : Int)) := by omega
  simp only [loadTrack, hg, if_false, List.getElem?_eq_getElem hlt, renderPlaylist,
    renderItems_throws html index s.currentTrackIndex s.tracks 0 0]

theorem loadTrack_outOfRange (html : String → Bool) (s : MusicApp) (index : Int)
    (h : index < 0 ∨ index ≥ (s.tracks.length : Int)) : loadTrack html s index = s := by
  simp only [loadTrack, h, if_true]

theorem loadTrack_index (html : String → Bool) (s : MusicApp) (index : Int)
    (h0 : 0 ≤ index) (h1 : index < (s.tracks.length : Int)) :
    (loadTrack html s index).currentTrackIndex = index := by
  obtain ⟨track, _, h⟩ := loadTrack_inRange html s index h0 h1
  rw [h]
  split <;> rfl

theorem loadTrack_playing (html : String → Bool) (s : MusicApp) (index : Int)
    (h0 : 0 ≤ index) (h1 : index < (s.tracks.length : Int))
    (hr : (renderPlaylist html s).2 = false) :
    (loadTrack html s index).isPlaying = true := by
  obtain ⟨track, _, h⟩ := loadTrack_inRange html s index h0 h1
  rw [h, hr]
  rfl

theorem loadTrack_thrown (html : String → Bool) (s : MusicApp) (index : Int)
    (h0 : 0 ≤ index) (h1 : index < (s.tracks.length : Int))
    (hr : (renderPlaylist html s).2 = true) :
    (loadTrack html s index).isPlaying = s.isPlaying := by
  obtain ⟨track, _, h⟩ := loadTrack_inRange html s index h0 h1
  rw [h, hr]
  rfl

theorem loadTrack_tracks (html : String → Bool) (s : MusicApp) (index : Int) :
    (loadTrack html s index).tracks = s.tracks := by
  unfold loadTrack
  split
  · rfl
  · split
    · rfl
    · simp only []
      split <;> rfl

/-! ## The store keeps its keys distinct -/

theorem storeWF_saveTrack (s s1 : MusicApp) (file : File)
    (h : storeWF s) (hs : saveTrack s file = some s1) :
    storeWF s1 ∧ s1.tracks = s.tracks ∧ s1.currentTrackIndex = s.currentTrackIndex
      ∧ ∃ extra, s1.db = s.db ++ extra := by
  unfold saveTrack at hs
  split at hs
  · simp only [Option.some.injEq] at hs
    subst hs
    refine ⟨⟨?_, ?_⟩, rfl, rfl, ⟨_, rfl⟩⟩
    · simp only [List.map_append, List.map_cons, List.map_nil]
      rw [List.pairwise_append]
      refine ⟨h.1, List.pairwise_singleton _ _, ?_⟩
      intro a ha b hb
      simp only [List.mem_singleton] at hb
      obtain ⟨t, ht, rfl⟩ := List.mem_map.1 ha
      rw [hb]
      exact h.2 t ht
    · intro t ht
      simp only [List.mem_append, List.mem_singleton] at ht
      rcases ht with ht | ht
      · exact Nat.lt_succ_of_lt (h.2 t ht)
      · subst ht
        exact Nat.lt_succ_self _
  · simp at hs

theorem storeWF_saveFiles (files : List File) (s : MusicApp) (k : Nat) (h : storeWF s) :
    storeWF (saveFiles files (s, k)).1
      ∧ (saveFiles files (s, k)).1.tracks = s.tracks
      ∧ (saveFiles files (s, k)).1.currentTrackIndex = s.currentTrackIndex
      ∧ ∃ extra, (saveFiles files (s, k)).1.db = s.db ++ extra := by
  induction files generalizing s k with
  | nil => exact ⟨h, rfl, rfl, ⟨[], by simp [saveFiles]⟩⟩
  | cons f rest ih =>
    simp only [saveFiles]
    split
    · cases hs : saveTrack s f with
      | none => exact ih s k h
      | some s1 =>
        obtain ⟨hw, ht, hc, e1, he1⟩ := storeWF_saveTrack s s1 f h hs
        obtain ⟨hw2, ht2, hc2, e2, he2⟩ := ih s1 (k + 1) hw
        refine ⟨hw2, ht2.trans ht, hc2.trans hc, ⟨e1 ++ e2, ?_⟩⟩
        rw [he2, he1, List.append_assoc]
    · exact ih s k h

theorem handleFileUpload_frame (s : MusicApp) (files : List File) (h : storeWF s) :
    storeWF (handleFileUpload s files)
      ∧ (handleFileUpload s files).currentTrackIndex = s.currentTrackIndex
      ∧ ((handleFileUpload s files).tracks = s.tracks
          ∨ ∃ extra, (handleFileUpload s files).tracks = s.db ++ extra) := by
  obtain ⟨hw, ht, hc, e, he⟩ := storeWF_saveFiles files s 0 h
  by_cases h0 : files.length = 0
  · have e : handleFileUpload s files = s := by
      simp only [handleFileUpload, h0, if_true]
    rw [e]
    exact ⟨h, rfl, Or.inl rfl⟩
  · by_cases hl : (!s.isPro && decide (s.tracks.length + files.length > maxFreeTracks)) = true
    · have e : handleFileUpload s files
          = { s with upgradeModalHidden := false,
                     toast := some (Toast.limitReached maxFreeTracks) } := by
        simp only [handleFileUpload, h0, if_false, hl, if_true]
      rw [e]
      exact ⟨h, rfl, Or.inl rfl⟩
    · have hl2 : (!s.isPro && decide (s.tracks.length + files.length > maxFreeTracks)) = false :=
        Bool.eq_false_iff.mpr hl
      by_cases hk : (saveFiles files (s, 0)).2 > 0
      · have e1 : handleFileUpload s files
            = loadPlaylist { (saveFiles files (s, 0)).1 with
                toast := some (Toast.saved (saveFiles files (s, 0)).2) } := by
          simp only [handleFileUpload, h0, if_false, hl2, Bool.false_eq_true, hk, if_true]
        rw [e1]
        exact ⟨hw, hc, Or.inr ⟨e, he⟩⟩
      · have e1 : handleFileUpload s files
            = { (saveFiles files (s, 0)).1 with toast := some Toast.loadFailed } := by
          simp only [handleFileUpload, h0, if_false, hl2, Bool.false_eq_true, hk]
        rw [e1]
        exact ⟨hw, hc, Or.inl ht⟩

theorem deleteTrack_db (s : MusicApp) (id : Nat) :
    (deleteTrack s id true).db = s.db.filter (fun t => t.id != id)
      ∧ (deleteTrack s id true).nextKey = s.nextKey
      ∧ (deleteTrack s id true).tracks = s.tracks := by
  by_cases hf : findIndex (fun t => t.id == id) s.tracks = s.currentTrackIndex
  · simp [deleteTrack, hf]
  · simp [deleteTrack, hf]

theorem storeWF_deleteTrack (s : MusicApp) (id : Nat) (confirmed : Bool) (h : storeWF s) :
    storeWF (deleteTrack s id confirmed) := by
  cases confirmed with
  | false => exact h
  | true =>
    obtain ⟨hdb, hk, _⟩ := deleteTrack_db s id
    have hsub : List.Sublist (s.db.filter (fun t => t.id != id)) s.db := List.filter_sublist _
    unfold storeWF
    rw [hdb, hk]
    exact ⟨List.Pairwise.sublist (hsub.map Track.id) h.1, fun t ht => h.2 t (hsub.subset ht)⟩

theorem storeWF_constructor (urlKey : Option String) (storedPro : Bool) :
    storeWF (MusicApp.constructor [] 1 storedPro urlKey) :=
  ⟨List.Pairwise.nil, fun t ht => by simp [MusicApp.constructor] at ht⟩

/-- Every catalog read from a well-formed store has pairwise distinct ids. -/
theorem loadPlaylist_nodup (s : MusicApp) (h : storeWF s) :
    ((loadPlaylist s).tracks.map Track.id).Nodup :=
  List.Pairwise.imp (fun hab => Nat.ne_of_lt hab) h.1

/-! ## Operations that keep the index in range -/

theorem validIndex_constructor (db : List Track) (nextKey : Nat) (storedPro : Bool)
    (urlKey : Option String) : validIndex (MusicApp.constructor db nextKey storedPro urlKey) := by
  simp [validIndex, MusicApp.constructor]

theorem activatePro_frame (s : MusicApp) (code : String) (fromUrl : Bool) :
    (activatePro s code fromUrl).currentTrackIndex = s.currentTrackIndex
      ∧ (activatePro s code fromUrl).tracks = s.tracks
      ∧ (activatePro s code fromUrl).db = s.db := by
  by_cases hc : code = proKey
  · cases fromUrl <;> simp [activatePro, hc]
  · simp [activatePro, hc]

theorem checkProStatus_frame (s : MusicApp) :
    (checkProStatus s).currentTrackIndex = s.currentTrackIndex
      ∧ (checkProStatus s).tracks = s.tracks
      ∧ (checkProStatus s).db = s.db := by
  have hs : ∀ s1 : MusicApp,
      ((match s1.urlKey with
        | some key => if key = proKey then activatePro s1 key true else s1
        | none => s1).currentTrackIndex = s1.currentTrackIndex)
      ∧ ((match s1.urlKey with
        | some key => if key = proKey then activatePro s1 key true else s1
        | none => s1).tracks = s1.tracks)
      ∧ ((match s1.urlKey with
        | some key => if key = proKey then activatePro s1 key true else s1
        | none => s1).db = s1.db) := by
    intro s1
    cases s1.urlKey with
    | none => exact ⟨rfl, rfl, rfl⟩
    | some key =>
      by_cases hk : key = proKey
      · subst hk
        show (if proKey = proKey then activatePro s1 proKey true else s1).currentTrackIndex = _
          ∧ (if proKey = proKey then activatePro s1 proKey true else s1).tracks = _
          ∧ (if proKey = proKey then activatePro s1 proKey true else s1).db = _
        rw [if_pos rfl]
        exact activatePro_frame s1 proKey true
      · show (if key = proKey then activatePro s1 key true else s1).currentTrackIndex = _
          ∧ (if key = proKey then activatePro s1 key true else s1).tracks = _
          ∧ (if key = proKey then activatePro s1 key true else s1).db = _
        rw [if_neg hk]
        exact ⟨rfl, rfl, rfl⟩
  unfold checkProStatus
  cases hp : s.storedPro
  · exact hs _
  · exact hs _

theorem validIndex_init (s : MusicApp) (h : s.currentTrackIndex = -1) :
    validIndex s.init := by
  unfold validIndex MusicApp.init loadPlaylist
  simp only [(checkProStatus_frame s).1, h]
  omega

theorem validIndex_loadTrack (html : String → Bool) (s : MusicApp) (index : Int)
    (h : validIndex s) : validIndex (loadTrack html s index) := by
  by_cases hr : index < 0 ∨ index ≥ (s.tracks.length : Int)
  · rw [loadTrack_outOfRange html s index hr]
    exact h
  · have h0 : 0 ≤ index := by omega
    have h1 : index < (s.tracks.length : Int) := by omega
    unfold validIndex
    rw [loadTrack_index html s index h0 h1, loadTrack_tracks]
    omega

theorem validIndex_play (s : MusicApp) (h : validIndex s) : validIndex (play s) := h

theorem validIndex_pause (s : MusicApp) (h : validIndex s) : validIndex (pause s) := h

theorem validIndex_togglePlay (html : String → Bool) (s : MusicApp) (h : validIndex s) :
    validIndex (togglePlay html s) := by
  unfold togglePlay
  split
  · exact validIndex_loadTrack html s 0 h
  · split
    · split
      · exact h
      · exact h
    · exact h

theorem validIndex_playNext (html : String → Bool) (s : MusicApp) (auto : Bool)
    (h : validIndex s) : validIndex (playNext html s auto) := by
  unfold playNext
  split
  · exact h
  · simp only []
    split
    · split
      · exact validIndex_loadTrack html s 0 h
      · split
        · exact h
        · exact validIndex_loadTrack html s 0 h
    · exact validIndex_loadTrack html s _ h

theorem validIndex_playPrevious (html : String → Bool) (s : MusicApp) (h : validIndex s) :
    validIndex (playPrevious html s) := by
  unfold playPrevious
  split
  · exact h
  · simp only []
    split
    · exact validIndex_loadTrack html s _ h
    · exact validIndex_loadTrack html s _ h

/-- An upload with its reload keeps the index in range when the cache agrees
with the store. -/
theorem validIndex_handleFileUpload (s : MusicApp) (files : List File)
    (h : validIndex s) (hw : storeWF s) (hsync : s.tracks = s.db) :
    validIndex (handleFileUpload s files) := by
  obtain ⟨_, hc, ht⟩ := handleFileUpload_frame s files hw
  unfold validIndex at *
  rw [hc]
  rcases ht with ht | ⟨e, he⟩
  · rw [ht]
    exact h
  · rw [he, List.length_append, ← hsync]
    push_cast
    omega

/-- A confirmed `deleteTrack` of a track that `findIndex` does not place at
`currentTrackIndex` keeps the numeric value of `currentTrackIndex`, also
after the reload. -/
theorem deleteTrack_other_index (s : MusicApp) (id : Nat)
    (h : findIndex (fun x => x.id == id) s.tracks ≠ s.currentTrackIndex) :
    (loadPlaylist (deleteTrack s id true)).currentTrackIndex = s.currentTrackIndex
    ∧ (loadPlaylist (deleteTrack s id true)).isPlaying = s.isPlaying := by
  simp [deleteTrack, loadPlaylist, h]

theorem findIndexFrom_absent {α : Type} (p : α → Bool) (l : List α) (k : Nat)
    (h : ∀ x ∈ l, p x = false) : findIndexFrom p l k = -1 := by
  induction l generalizing k with
  | nil => rfl
  | cons x xs ih =>
    have hx : p x = false := h x (List.mem_cons_self x xs)
    simp only [findIndexFrom, hx, Bool.false_eq_true, if_false]
    exact ih (k + 1) (fun y hy => h y (List.mem_cons_of_mem x hy))

theorem findIndexFrom_present {α : Type} (p : α → Bool) (l : List α) (k : Nat)
    (h : ∃ x ∈ l, p x = true) :
    ∃ j, j < l.length ∧ findIndexFrom p l k = ((k + j : Nat) : Int) := by
  induction l generalizing k with
  | nil =>
    obtain ⟨x, hx, _⟩ := h
    simp at hx
  | cons x xs ih =>
    by_cases hx : p x = true
    · exact ⟨0, by simp, by simp [findIndexFrom, hx]⟩
    · have hrest : ∃ y ∈ xs, p y = true := by
        obtain ⟨y, hy, hpy⟩ := h
        rcases List.mem_cons.1 hy with rfl | hy2
        · exact absurd hpy hx
        · exact ⟨y, hy2, hpy⟩
      obtain ⟨j, hj, hfj⟩ := ih (k + 1) hrest
      have hx2 : p x = false := Bool.eq_false_iff.mpr hx
      refine ⟨j + 1, by simp [hj], ?_⟩
      simp only [findIndexFrom, hx2, Bool.false_eq_true, if_false]
      rw [hfj]
      congr 1
      omega

theorem filter_id_absent (l : List Track) (id : Nat) (h : ∀ x ∈ l, x.id ≠ id) :
    l.filter (fun t => t.id != id) = l := by
  rw [List.filter_eq_self]
  intro x hx
  simpa using h x hx

theorem filter_id_present (l : List Track) (id : Nat)
    (hnd : (l.map Track.id).Nodup) (h : ∃ x ∈ l, x.id = id) :
    (l.filter (fun t => t.id != id)).length + 1 = l.length := by
  induction l with
  | nil =>
    obtain ⟨x, hx, _⟩ := h
    simp at hx
  | cons x xs ih =>
    rw [List.map_cons, List.nodup_cons] at hnd
    by_cases hx : x.id = id
    · have habs : ∀ y ∈ xs, y.id ≠ id := by
        intro y hy hyid
        exact hnd.1 (by rw [hx, ← hyid]; exact List.mem_map_of_mem Track.id hy)
      simp [List.filter_cons, hx, filter_id_absent xs id habs]
    · have hrest : ∃ y ∈ xs, y.id = id := by
        obtain ⟨y, hy, hyid⟩ := h
        rcases List.mem_cons.1 hy with rfl | hy2
        · exact absurd hyid hx
        · exact ⟨y, hy2, hyid⟩
      have := ih hnd.2 hrest
      simp [List.filter_cons, hx]
      omega

/-- A confirmed `deleteTrack` with its reload keeps the index in range when
the cache agrees with the store and the deleted track does not come before
the current one. -/
theorem validIndex_deleteTrack (s : MusicApp) (id : Nat)
    (h : validIndex s) (hsync : s.tracks = s.db)
    (hnd : (s.tracks.map Track.id).Nodup)
    (hnot : ¬ (0 ≤ findIndex (fun x => x.id == id) s.tracks
                ∧ findIndex (fun x => x.id == id) s.tracks < s.currentTrackIndex)) :
    validIndex (loadPlaylist (deleteTrack s id true)) := by
  by_cases hf : findIndex (fun x => x.id == id) s.tracks = s.currentTrackIndex
  · simp only [validIndex, deleteTrack, loadPlaylist, hf, if_true, Bool.not_true,
      Bool.false_eq_true, if_false]
    omega
  · obtain ⟨hcur, _⟩ := deleteTrack_other_index s id hf
    have htr : (loadPlaylist (deleteTrack s id true)).tracks
        = s.tracks.filter (fun t => t.id != id) := by
      rw [hsync]
      exact (deleteTrack_db s id).1
    unfold validIndex at *
    rw [hcur, htr]
    by_cases hex : ∃ x ∈ s.tracks, x.id = id
    · have hlen := filter_id_present s.tracks id hnd hex
      have hex2 : ∃ x ∈ s.tracks, (fun x : Track => x.id == id) x = true := by
        obtain ⟨x, hx, hxid⟩ := hex
        exact ⟨x, hx, by simp [hxid]⟩
      obtain ⟨j, hj, hfj⟩ := findIndexFrom_present (fun x : Track => x.id == id) s.tracks 0 hex2
      rw [findIndex, hfj] at hnot hf
      omega
    · have habs : ∀ x ∈ s.tracks, x.id ≠ id := fun x hx hxid => hex ⟨x, hx, hxid⟩
      rw [filter_id_absent s.tracks id habs]
      exact h

/-! ## Entitlement gate -/

/-- C1: with at least one selected file, `handleFileUpload` passes the limit
check (it does not end with the limit notice) exactly when `isPro` holds or
the catalog length plus the number of files is at most 10.  Past the check the
store is the one the save loop leaves; at the check the store is untouched.
It always passes when `isPro` holds and stops for 8 tracks plus 3 files
without `isPro`. -/
theorem handleFileUpload_admits_iff (s : MusicApp) (files : List File)
    (hn : 1 ≤ files.length) :
    ((handleFileUpload s files).toast ≠ some (Toast.limitReached 10)
        ↔ (s.isPro = true ∨ s.tracks.length + files.length ≤ 10))
    ∧ ((s.isPro = true ∨ s.tracks.length + files.length ≤ 10) →
        (handleFileUpload s files).db = (saveFiles files (s, 0)).1.db)
    ∧ (¬ (s.isPro = true ∨ s.tracks.length + files.length ≤ 10) →
        handleFileUpload s files
          = { s with upgradeModalHidden := false, toast := some (Toast.limitReached 10) })
    ∧ (s.isPro = true →
        (handleFileUpload s files).toast ≠ some (Toast.limitReached 10))
    ∧ (s.isPro = false → s.tracks.length = 8 → files.length = 3 →
        (handleFileUpload s files).toast = some (Toast.limitReached 10)) := by
  have hlen : files.length ≠ 0 := by omega
  have key : ∀ (h : s.isPro = true ∨ s.tracks.length + files.length ≤ 10),
      handleFileUpload s files
        = (if (saveFiles files (s, 0)).2 > 0 then
            loadPlaylist { (saveFiles files (s, 0)).1 with
              toast := some (Toast.saved (saveFiles files (s, 0)).2) }
          else { (saveFiles files (s, 0)).1 with toast := some Toast.loadFailed }) := by
    intro h
    have hc : (!s.isPro && decide (s.tracks.length + files.length > maxFreeTracks)) = false := by
      rcases h with h | h
      · simp [h]
      · simp [maxFreeTracks]; intro _; omega
    simp only [handleFileUpload, hlen, if_false, hc, Bool.false_eq_true]
  have rej : ¬ (s.isPro = true ∨ s.tracks.length + files.length ≤ 10) →
      handleFileUpload s files
        = { s with upgradeModalHidden := false, toast := some (Toast.limitReached 10) } := by
    intro h
    have hc : (!s.isPro && decide (s.tracks.length + files.length > maxFreeTracks)) = true := by
      simp only [not_or] at h
      simp [maxFreeTracks]
      constructor
      · simpa using h.1
      · omega
    simp only [handleFileUpload, hlen, if_false, hc, if_true]
    rfl
  have adm : (s.isPro = true ∨ s.tracks.length + files.length ≤ 10) →
      (handleFileUpload s files).toast ≠ some (Toast.limitReached 10) := by
    intro h
    rw [key h]
    split <;> simp [loadPlaylist]
  refine ⟨⟨fun h => ?_, adm⟩, fun h => ?_, rej, fun h => adm (Or.inl h), fun hp h8 h3 => ?_⟩
  · by_contra hneg
    rw [rej hneg] at h
    exact h rfl
  · rw [key h]
    split <;> simp [loadPlaylist]
  · rw [rej (by simp [hp, h8, h3])]

/-- Witness of C1: one file on the empty catalog passes the check, a ninth,
tenth and eleventh on eight tracks do not. -/
theorem handleFileUpload_admits_iff_witness :
    1 ≤ [fileA].length
    ∧ (handleFileUpload app0 [fileA]).toast ≠ some (Toast.limitReached 10)
    ∧ (handleFileUpload app8 [fileA, fileB, fileC]).toast = some (Toast.limitReached 10) :=
  ⟨by decide,
   (handleFileUpload_admits_iff app0 [fileA] (by decide)).1.2 (Or.inr (by decide)),
   (handleFileUpload_admits_iff app8 [fileA, fileB, fileC] (by decide)).2.2.2.2
      (by decide) (by decide) (by decide)⟩

/-! ## Playback controller: loading, playing, pausing -/

/-- What `loadTrack(index)` does on every catalog: with `0 <= index < N` it
ends with `currentTrackIndex = index`, and with `isPlaying = true` when
`renderPlaylist` completes but with `isPlaying` as it was when
`renderPlaylist` throws; with `index < 0` or `index >= N` it leaves the state
unchanged. -/
theorem loadTrack_rendered (html : String → Bool) (s : MusicApp) (index : Int) :
    (0 ≤ index → index < (s.tracks.length : Int) →
      (loadTrack html s index).currentTrackIndex = index
        ∧ ((renderPlaylist html s).2 = false → (loadTrack html s index).isPlaying = true)
        ∧ ((renderPlaylist html s).2 = true →
            (loadTrack html s index).isPlaying = s.isPlaying))
    ∧ (index < 0 ∨ index ≥ (s.tracks.length : Int) → loadTrack html s index = s) :=
  ⟨fun h0 h1 => ⟨loadTrack_index html s index h0 h1, loadTrack_playing html s index h0 h1,
      loadTrack_thrown html s index h0 h1⟩,
   loadTrack_outOfRange html s index⟩

/-- C9 at its failing input: the catalog holds one track whose shown name is
`a` followed by `<`, `!`, `-`, `-`, nothing is selected and nothing plays.
Whatever the parser answers for other names, `renderPlaylist` throws, and
`loadTrack(0)`, with `0` in range, ends with `currentTrackIndex = 0`, the audio
source bound and `isPlaying = false` instead of `true`. -/
theorem loadTrack_skips_play (html : String → Bool) :
    appD.tracks.map Track.name = [String.mk ['a', '<', '!', '-', '-', '.', 'm', 'p', '3']]
    ∧ appD.currentTrackIndex = -1 ∧ appD.isPlaying = false
    ∧ (renderPlaylist html appD).2 = true
    ∧ (loadTrack html appD 0).currentTrackIndex = 0
    ∧ (loadTrack html appD 0).audioSrc = some [4]
    ∧ (loadTrack html appD 0).isPlaying = false :=
  ⟨rfl, rfl, rfl, rfl, rfl, rfl, rfl⟩

/-- C10, as the code has it: in every state, the empty one included, `play`
sets `isPlaying` to true and `pause` sets it to false, and both keep
`currentTrackIndex`. -/
theorem play_pause_spec (s : MusicApp) :
    (play s).currentTrackIndex = s.currentTrackIndex ∧ (play s).isPlaying = true
    ∧ (pause s).currentTrackIndex = s.currentTrackIndex ∧ (pause s).isPlaying = false :=
  ⟨rfl, rfl, rfl, rfl⟩

/-- C10 fails as stated: from the state after start-up (index `-1`, not
playing) `play` ends with `isPlaying = true`. -/
theorem play_from_empty_not_noop :
    app0.currentTrackIndex = -1 ∧ app0.isPlaying = false
    ∧ (play app0).currentTrackIndex = -1 ∧ (play app0).isPlaying = true := by
  decide

/-- C8: `togglePlay` on index `-1` and an empty catalog leaves the state
unchanged, on index `-1` and a non-empty catalog it equals `loadTrack 0`, and
on any other index it keeps the index and negates `isPlaying`. -/
theorem togglePlay_table (html : String → Bool) (s : MusicApp) :
    (s.currentTrackIndex = -1 → s.tracks.length = 0 → togglePlay html s = s)
    ∧ (s.currentTrackIndex = -1 → s.tracks.length > 0 →
        togglePlay html s = loadTrack html s 0)
    ∧ (s.currentTrackIndex ≠ -1 →
        (togglePlay html s).currentTrackIndex = s.currentTrackIndex
          ∧ (togglePlay html s).isPlaying = !s.isPlaying) := by
  refine ⟨fun h1 h2 => ?_, fun h1 h2 => ?_, fun h1 => ?_⟩
  · simp [togglePlay, h1, h2]
  · simp [togglePlay, h1, h2]
  · cases hp : s.isPlaying <;> simp [togglePlay, h1, hp, play, pause]

/-- Witness of C8: the empty application, one stored track with nothing
selected, a playing track and a paused track. -/
theorem togglePlay_table_witness :
    togglePlay htmlKeeps app0 = app0
    ∧ togglePlay htmlKeeps app1 = loadTrack htmlKeeps app1 0
    ∧ ((togglePlay htmlKeeps (loadTrack htmlKeeps app1 0)).currentTrackIndex
          = (loadTrack htmlKeeps app1 0).currentTrackIndex
        ∧ (togglePlay htmlKeeps (loadTrack htmlKeeps app1 0)).isPlaying
          = !(loadTrack htmlKeeps app1 0).isPlaying)
    ∧ ((togglePlay htmlKeeps (pause (loadTrack htmlKeeps app1 0))).currentTrackIndex
          = (pause (loadTrack htmlKeeps app1 0)).currentTrackIndex
        ∧ (togglePlay htmlKeeps (pause (loadTrack htmlKeeps app1 0))).isPlaying
          = !(pause (loadTrack htmlKeeps app1 0)).isPlaying) :=
  ⟨(togglePlay_table htmlKeeps app0).1 (by decide) (by decide),
   (togglePlay_table htmlKeeps app1).2.1 (by decide) (by decide),
   (togglePlay_table htmlKeeps (loadTrack htmlKeeps app1 0)).2.2 (by decide),
   (togglePlay_table htmlKeeps (pause (loadTrack htmlKeeps app1 0))).2.2 (by decide)⟩

/-! ## Playback controller: next and previous -/

/-- What `playNext(auto)` does on a catalog of `N >= 2` tracks and an index
`i` with `-1 <= i <= N - 1`, for both values of `auto`: it equals `loadTrack`
of `(i + 1) mod N`, so it ends with that index, and with `isPlaying = true`
when `renderPlaylist` completes but with `isPlaying` as it was when
`renderPlaylist` throws. -/
theorem playNext_rendered (html : String → Bool) (s : MusicApp) (auto : Bool)
    (hN : 2 ≤ s.tracks.length)
    (hlo : -1 ≤ s.currentTrackIndex)
    (hhi : s.currentTrackIndex ≤ (s.tracks.length : Int) - 1) :
    playNext html s auto
        = loadTrack html s ((s.currentTrackIndex + 1) % (s.tracks.length : Int))
    ∧ (playNext html s auto).currentTrackIndex
        = (s.currentTrackIndex + 1) % (s.tracks.length : Int)
    ∧ ((renderPlaylist html s).2 = false → (playNext html s auto).isPlaying = true)
    ∧ ((renderPlaylist html s).2 = true → (playNext html s auto).isPlaying = s.isPlaying) := by
  have hne : s.tracks.length ≠ 0 := by omega
  have hgt : s.tracks.length > 1 := by omega
  have hres : playNext html s auto
      = loadTrack html s ((s.currentTrackIndex + 1) % (s.tracks.length : Int)) := by
    by_cases hlast : s.currentTrackIndex + 1 ≥ (s.tracks.length : Int)
    · have heq : s.currentTrackIndex + 1 = (s.tracks.length : Int) := by omega
      rw [heq, Int.emod_self]
      cases auto <;> simp [playNext, hne, hlast, hgt]
    · rw [Int.emod_eq_of_lt (by omega) (by omega)]
      simp only [playNext, hne, if_false, hlast]
  have h0 : 0 ≤ (s.currentTrackIndex + 1) % (s.tracks.length : Int) :=
    Int.emod_nonneg _ (by omega)
  have h1 : (s.currentTrackIndex + 1) % (s.tracks.length : Int) < (s.tracks.length : Int) :=
    Int.emod_lt_of_pos _ (by omega)
  rw [hres]
  exact ⟨rfl, loadTrack_index html s _ h0 h1, loadTrack_playing html s _ h0 h1,
    loadTrack_thrown html s _ h0 h1⟩

/-- C6 at its failing input: the catalog holds two tracks, the first with the
shown name `a` followed by `<`, `!`, `-`, `-`; nothing is selected and nothing
plays.  `playNext(false)` ends with index `0 = (-1 + 1) mod 2` and
`isPlaying = false` instead of `true`; and from index 1, the last position,
`playNext(true)` wraps to index 0 and again ends with `isPlaying = false`. -/
theorem playNext_skips_play (html : String → Bool) :
    appDB.tracks.length = 2 ∧ appDB.currentTrackIndex = -1 ∧ appDB.isPlaying = false
    ∧ (renderPlaylist html appDB).2 = true
    ∧ (playNext html appDB false).currentTrackIndex = 0
    ∧ (playNext html appDB false).isPlaying = false
    ∧ (loadTrack html appDB 1).currentTrackIndex = 1
    ∧ (playNext html (loadTrack html appDB 1) true).currentTrackIndex = 0
    ∧ (playNext html (loadTrack html appDB 1) true).isPlaying = false :=
  ⟨rfl, rfl, rfl, rfl, rfl, rfl, rfl, rfl, rfl⟩

/-- What `playPrevious` does on a catalog of `N >= 1` tracks from index 0: it
equals `loadTrack` of `N - 1`, so it ends with index `N - 1`, and with
`isPlaying = true` when `renderPlaylist` completes but with `isPlaying` as it
was when `renderPlaylist` throws. -/
theorem playPrevious_rendered (html : String → Bool) (s : MusicApp)
    (hN : 1 ≤ s.tracks.length) (hcur : s.currentTrackIndex = 0) :
    playPrevious html s = loadTrack html s ((s.tracks.length : Int) - 1)
    ∧ (playPrevious html s).currentTrackIndex = (s.tracks.length : Int) - 1
    ∧ ((renderPlaylist html s).2 = false → (playPrevious html s).isPlaying = true)
    ∧ ((renderPlaylist html s).2 = true → (playPrevious html s).isPlaying = s.isPlaying) := by
  have hne : s.tracks.length ≠ 0 := by omega
  have hres : playPrevious html s = loadTrack html s ((s.tracks.length : Int) - 1) := by
    simp [playPrevious, hne, hcur]
  have h0 : 0 ≤ (s.tracks.length : Int) - 1 := by omega
  have h1 : (s.tracks.length : Int) - 1 < (s.tracks.length : Int) := by omega
  rw [hres]
  exact ⟨rfl, loadTrack_index html s _ h0 h1, loadTrack_playing html s _ h0 h1,
    loadTrack_thrown html s _ h0 h1⟩

/-- C7 at its failing input: the catalog holds two tracks, the second with
the shown name `a` followed by `<`, `!`, `-`, `-`.  After `togglePlay` the
first track is selected (index 0) and nothing plays; `playPrevious` then ends
with index `1 = N - 1` and `isPlaying = false` instead of `true`. -/
theorem playPrevious_skips_play (html : String → Bool) :
    (togglePlay html appAD).tracks.length = 2
    ∧ (togglePlay html appAD).currentTrackIndex = 0
    ∧ (togglePlay html appAD).isPlaying = false
    ∧ (renderPlaylist html (togglePlay html appAD)).2 = true
    ∧ (playPrevious html (togglePlay html appAD)).currentTrackIndex = 1
    ∧ (playPrevious html (togglePlay html appAD)).isPlaying = false :=
  ⟨rfl, rfl, rfl, rfl, rfl, rfl⟩

/-- C5, as the code has it: on a catalog of exactly one track,
`playNext(true)` leaves the state unchanged when a track is selected
(`currentTrackIndex >= 0`) and equals `loadTrack 0` when none is
(`currentTrackIndex = -1`); `playNext(false)` equals `loadTrack 0` for every
`currentTrackIndex >= -1`: it ends with index 0, and with `isPlaying = true`
when `renderPlaylist` completes. -/
theorem playNext_single (html : String → Bool) (s : MusicApp) (h1 : s.tracks.length = 1) :
    (0 ≤ s.currentTrackIndex → playNext html s true = s)
    ∧ (s.currentTrackIndex = -1 → playNext html s true = loadTrack html s 0)
    ∧ (-1 ≤ s.currentTrackIndex →
        playNext html s false = loadTrack html s 0
          ∧ (playNext html s false).currentTrackIndex = 0
          ∧ ((renderPlaylist html s).2 = false → (playNext html s false).isPlaying = true)) := by
  have hne : s.tracks.length ≠ 0 := by omega
  have hgt : ¬ s.tracks.length > 1 := by omega
  refine ⟨fun h => ?_, fun h => ?_, fun h => ?_⟩
  · have hge : s.currentTrackIndex + 1 ≥ (s.tracks.length : Int) := by omega
    simp [playNext, hne, hge, hgt]
  · have hlt : ¬ s.currentTrackIndex + 1 ≥ (s.tracks.length : Int) := by omega
    rw [h] at hlt
    simp only [playNext, hne, if_false, h, hlt]
    rfl
  · have hres : playNext html s false = loadTrack html s 0 := by
      by_cases hge : s.currentTrackIndex + 1 ≥ (s.tracks.length : Int)
      · simp [playNext, hne, hge]
      · have h0 : s.currentTrackIndex = -1 := by omega
        rw [h0] at hge
        simp only [playNext, hne, if_false, h0, hge]
        rfl
    rw [hres]
    exact ⟨rfl, loadTrack_index html s 0 (le_refl 0) (by omega),
      loadTrack_playing html s 0 (le_refl 0) (by omega)⟩

/-- Witness of C5 as amended: one track, selected and paused, and one track
with nothing selected. -/
theorem playNext_single_witness :
    (pause (loadTrack htmlKeeps app1 0)).tracks.length = 1
    ∧ playNext htmlKeeps (pause (loadTrack htmlKeeps app1 0)) true
        = pause (loadTrack htmlKeeps app1 0)
    ∧ playNext htmlKeeps app1 true = loadTrack htmlKeeps app1 0
    ∧ (playNext htmlKeeps (pause (loadTrack htmlKeeps app1 0)) false
          = loadTrack htmlKeeps (pause (loadTrack htmlKeeps app1 0)) 0
        ∧ (playNext htmlKeeps (pause (loadTrack htmlKeeps app1 0)) false).currentTrackIndex = 0
        ∧ (playNext htmlKeeps (pause (loadTrack htmlKeeps app1 0)) false).isPlaying = true) :=
  ⟨by decide,
   (playNext_single htmlKeeps (pause (loadTrack htmlKeeps app1 0)) (by decide)).1 (by decide),
   (playNext_single htmlKeeps app1 (by decide)).2.1 (by decide),
   ((playNext_single htmlKeeps (pause (loadTrack htmlKeeps app1 0)) (by decide)).2.2
      (by decide)).1,
   ((playNext_single htmlKeeps (pause (loadTrack htmlKeeps app1 0)) (by decide)).2.2
      (by decide)).2.1,
   ((playNext_single htmlKeeps (pause (loadTrack htmlKeeps app1 0)) (by decide)).2.2
      (by decide)).2.2 (by decide)⟩

/-- C5 fails as stated: on a one-track catalog with a plain name and nothing
selected (index `-1`, not playing), `playNext(true)` ends with index 0 and
`isPlaying = true`. -/
theorem playNext_auto_single_from_empty :
    app1.tracks.length = 1 ∧ app1.currentTrackIndex = -1 ∧ app1.isPlaying = false
    ∧ (playNext htmlKeeps app1 true).currentTrackIndex = 0
    ∧ (playNext htmlKeeps app1 true).isPlaying = true
    ∧ ¬ ((playNext htmlKeeps app1 true).currentTrackIndex = app1.currentTrackIndex
          ∧ (playNext htmlKeeps app1 true).isPlaying = app1.isPlaying) := by
  decide

/-! ## Deleting a track -/

/-- C2: in a catalog whose ids are pairwise distinct (they are keys of the
object store), a confirmed `deleteTrack` of the id of the track at position
`currentTrackIndex = i` ends with `currentTrackIndex = -1` and
`isPlaying = false`, also after the reload, whatever `isPlaying` was. -/
theorem deleteTrack_current (s : MusicApp) (i : Nat) (t : Track)
    (hcur : s.currentTrackIndex = (i : Int))
    (ht : s.tracks[i]? = some t)
    (hnd : (s.tracks.map Track.id).Nodup) :
    (deleteTrack s t.id true).currentTrackIndex = -1
    ∧ (deleteTrack s t.id true).isPlaying = false
    ∧ (loadPlaylist (deleteTrack s t.id true)).currentTrackIndex = -1
    ∧ (loadPlaylist (deleteTrack s t.id true)).isPlaying = false := by
  have hfi : findIndex (fun x => x.id == t.id) s.tracks = s.currentTrackIndex := by
    rw [findIndex, findIndexFrom_unique s.tracks i 0 t hnd ht, hcur, Nat.zero_add]
  simp [deleteTrack, loadPlaylist, hfi]

/-- Witness of C2: three tracks, the second one playing, and it is deleted. -/
theorem deleteTrack_current_witness :
    ((loadTrack htmlKeeps app3 1).currentTrackIndex = ((1 : Nat) : Int)
      ∧ (loadTrack htmlKeeps app3 1).isPlaying = true)
    ∧ (deleteTrack (loadTrack htmlKeeps app3 1)
          (Track.mk 2 "b.tar.ogg" [2] 101).id true).currentTrackIndex = -1
    ∧ (deleteTrack (loadTrack htmlKeeps app3 1)
          (Track.mk 2 "b.tar.ogg" [2] 101).id true).isPlaying = false
    ∧ (loadPlaylist (deleteTrack (loadTrack htmlKeeps app3 1)
          (Track.mk 2 "b.tar.ogg" [2] 101).id true)).currentTrackIndex = -1
    ∧ (loadPlaylist (deleteTrack (loadTrack htmlKeeps app3 1)
          (Track.mk 2 "b.tar.ogg" [2] 101).id true)).isPlaying = false :=
  ⟨by decide,
   deleteTrack_current (loadTrack htmlKeeps app3 1) 1 (Track.mk 2 "b.tar.ogg" [2] 101)
     (by decide) (by decide) (by decide)⟩

/-- C3 at its failing input: two tracks, the second (last) one playing, so
the index is valid; after a confirmed `deleteTrack` of the first track and the
reload the catalog has one track and `currentTrackIndex` is still 1, so the
index is no valid position any more. -/
theorem deleteTrack_earlier_breaks_validIndex :
    validIndex (loadTrack htmlKeeps app2 1)
    ∧ (loadTrack htmlKeeps app2 1).currentTrackIndex = 1
    ∧ (loadPlaylist (deleteTrack (loadTrack htmlKeeps app2 1) 1 true)).tracks.length = 1
    ∧ (loadPlaylist (deleteTrack (loadTrack htmlKeeps app2 1) 1 true)).currentTrackIndex = 1
    ∧ ¬ validIndex (loadPlaylist (deleteTrack (loadTrack htmlKeeps app2 1) 1 true)) := by
  decide

/-- After the failing input of C3 the index is stale: a confirmed
`deleteTrack` of id 2, the track that is playing, finds it at position 0 and
not at `currentTrackIndex = 1`, so the stop branch announced on line 261 is
skipped and the reload leaves an empty catalog with index 1, `isPlaying = true`
and the audio source still bound. -/
theorem deleteTrack_stale_index_skips_stop :
    (loadPlaylist (deleteTrack
        (loadPlaylist (deleteTrack (loadTrack htmlKeeps app2 1) 1 true)) 2 true)).tracks = []
    ∧ (loadPlaylist (deleteTrack
        (loadPlaylist (deleteTrack (loadTrack htmlKeeps app2 1) 1 true)) 2 true)).currentTrackIndex
        = 1
    ∧ (loadPlaylist (deleteTrack
        (loadPlaylist (deleteTrack (loadTrack htmlKeeps app2 1) 1 true)) 2 true)).isPlaying = true
    ∧ (loadPlaylist (deleteTrack
        (loadPlaylist (deleteTrack (loadTrack htmlKeeps app2 1) 1 true)) 2 true)).audioSrc
        = some [2] := by
  decide

/-- C4 at its failing input: three tracks with ids 1, 2, 3, the second one
(id 2) playing at index 1; after a confirmed `deleteTrack` of id 1 and the
reload `currentTrackIndex` is still 1 and not 0, and position 1 now holds the
track with id 3 while the track with id 2 sits at position 0. -/
theorem deleteTrack_earlier_keeps_raw_index :
    (loadTrack htmlKeeps app3 1).currentTrackIndex = 1
    ∧ (loadTrack htmlKeeps app3 1).tracks.map Track.id = [1, 2, 3]
    ∧ (loadPlaylist (deleteTrack (loadTrack htmlKeeps app3 1) 1 true)).tracks.map Track.id
        = [2, 3]
    ∧ (loadPlaylist (deleteTrack (loadTrack htmlKeeps app3 1) 1 true)).currentTrackIndex = 1
    ∧ (loadPlaylist (deleteTrack (loadTrack htmlKeeps app3 1) 1 true)).currentTrackIndex ≠ 0
    ∧ (renderPlaylist htmlKeeps
          (loadPlaylist (deleteTrack (loadTrack htmlKeeps app3 1) 1 true))).1.map Prod.snd
        = [false, true] := by
  decide

end DemoPlayer
